import Mathlib

/-!
Verification of the asm_lite attack-surface pipeline
(`discover.py`, `resolve.py`, `probe.py`) against its specification.

The Python source is shallowly embedded: strings are Lean `String`s
manipulated through their underlying `List Char`, the decoded crt.sh
response is a `Json` value, fallible code returns `Except`, and the
ambient collaborators (the certificate-transparency endpoint, the DNS
resolver) are passed in as explicit data.
-/

set_option autoImplicit false

deriving instance DecidableEq for Except

namespace AsmLite

/-- A decoded JSON value, as produced by `json.loads`.  Numbers are
modelled as integers (the fields the code touches are strings, so the
numeric representation is never inspected beyond truthiness). -/
inductive Json where
  | null
  | bool (b : Bool)
  | num (n : Int)
  | str (s : String)
  | arr (xs : List Json)
  | obj (kvs : List (String × Json))

/-- Python `str.strip()`: drop leading and trailing whitespace. -/
def pyStrip (s : String) : String :=
  ⟨((s.data.dropWhile Char.isWhitespace).reverse.dropWhile Char.isWhitespace).reverse⟩

/-- Python `str.lower()` (ASCII case folding, as in `Char.toLower`). -/
def pyLower (s : String) : String :=
  ⟨s.data.map Char.toLower⟩

/-- Python `str.rstrip(".")`: drop trailing dots. -/
def rstripDots (s : String) : String :=
  ⟨(s.data.reverse.dropWhile (· == '.')).reverse⟩

/-- Python `str.endswith(suffix)`. -/
def pyEndsWith (s suffix : String) : Bool :=
  suffix.data.isSuffixOf s.data

/-- Python `str.splitlines()`: split at line boundaries, no trailing
empty piece. -/
def splitlinesAux : List Char → List Char → List String
  | [], [] => []
  | [], acc => [⟨acc.reverse⟩]
  | '\r' :: '\n' :: rest, acc => ⟨acc.reverse⟩ :: splitlinesAux rest []
  | '\r' :: rest, acc => ⟨acc.reverse⟩ :: splitlinesAux rest []
  | '\n' :: rest, acc => ⟨acc.reverse⟩ :: splitlinesAux rest []
  | c :: rest, acc => splitlinesAux rest (c :: acc)

def splitlines (s : String) : List String :=
  splitlinesAux s.data []

/-- The normalisation `host.strip().lower().rstrip(".")` applied by
`_valid_subdomain` (discover.py line 45) and again at the `subs.add`
call site (discover.py line 97). -/
def normHost (host : String) : String :=
  rstripDots (pyLower (pyStrip host))

/-- A character allowed by the regex `[a-z0-9.-]` (discover.py line 56). -/
def hostChar (c : Char) : Bool :=
  c.isLower || c.isDigit || c == '.' || c == '-'

/-- `_valid_subdomain` (discover.py lines 36-56). -/
def _valid_subdomain (host domain : String) : Bool :=
  let h := normHost host
  if h.data.isEmpty || h.data.contains '*' then false
  else if !(h == domain) && !(pyEndsWith h ("." ++ domain)) then false
  else !h.data.isEmpty && h.data.all hostChar

/-- Insertion into a Python `set`, rendered as a duplicate-free list. -/
def addToSet (s : String) (l : List String) : List String :=
  if s ∈ l then l else l ++ [s]

/-- Python string `<`: code-point lexicographic order. -/
def charListLt : List Char → List Char → Bool
  | [], [] => false
  | [], _ :: _ => true
  | _ :: _, [] => false
  | c :: cs, d :: ds =>
    if c.toNat < d.toNat then true
    else if d.toNat < c.toNat then false
    else charListLt cs ds

/-- Insert into a sorted list of strings. -/
def insertSorted (s : String) : List String → List String
  | [] => [s]
  | t :: ts => if charListLt s.data t.data then s :: t :: ts else t :: insertSorted s ts

/-- Python `sorted` on strings (code-point lexicographic order). -/
def sortStrings (l : List String) : List String :=
  l.foldr insertSorted []

/-- Python truthiness of a JSON value, for `row.get("name_value") or ""`. -/
def pyTruthy : Json → Bool
  | .null => false
  | .bool b => b
  | .num n => !(n == 0)
  | .str s => !s.data.isEmpty
  | .arr xs => !xs.isEmpty
  | .obj kvs => !kvs.isEmpty

/-- `dict.get`: the value stored under `k`, last write wins (as when
`json.loads` builds the dict). -/
def lookupLast (kvs : List (String × Json)) (k : String) : Option Json :=
  kvs.foldl (fun acc kv => if kv.1 == k then some kv.2 else acc) none

/-- `(row.get("name_value") or "")` followed by the `.strip()` call's
receiver check (discover.py line 94).  A row that is not a dict has no
`.get` attribute; a truthy non-string `name_value` has no `.strip`. -/
def getNameValue : Json → Except String String
  | .obj kvs =>
    match lookupLast kvs "name_value" with
    | none => .ok ""
    | some v =>
      if pyTruthy v then
        match v with
        | .str s => .ok s
        | _ => .error "AttributeError"
      else .ok ""
  | _ => .error "AttributeError"

/-- Python `for row in data`: lists yield their elements, dicts their
keys (strings), strings their characters (1-character strings); other
values are not iterable. -/
def pyIter : Json → Except String (List Json)
  | .arr xs => .ok xs
  | .obj kvs => .ok (kvs.map (fun kv => .str kv.1))
  | .str s => .ok (s.data.map (fun c => .str ⟨[c]⟩))
  | _ => .error "TypeError"

/-- The inner `for host in name_val.splitlines()` loop of
`discover_subdomains` (discover.py lines 95-101), including the early
cap check after every host. -/
def processLines (domain : String) (limit : Nat) : List String → List String → List String
  | subs, [] => subs
  | subs, host :: rest =>
    let subs' := if _valid_subdomain host domain then addToSet (normHost host) subs else subs
    if limit ≤ subs'.length then subs' else processLines domain limit subs' rest

/-- The outer `for row in data` loop of `discover_subdomains`
(discover.py lines 93-104), including the cap check after every row. -/
def processRows (domain : String) (limit : Nat) : List String → List Json → Except String (List String)
  | subs, [] => .ok subs
  | subs, row :: rest =>
    match getNameValue row with
    | .error e => .error e
    | .ok nv =>
      let subs' := processLines domain limit subs (splitlines (pyStrip nv))
      if limit ≤ subs'.length then .ok subs' else processRows domain limit subs' rest

/-- `discover_subdomains` (discover.py lines 59-109).  `resp = none`
models any failure of the fetch/decode step caught by the
`try`/`except` (network error, undecodable body, invalid JSON): the
code proceeds with `data = []`.  `resp = some j` models a decoded JSON
body `j`.  An uncaught Python exception is an `Except.error`. -/
def discover_subdomains (domain : String) (limit : Nat) (resp : Option Json) :
    Except String (List String) :=
  let dataE : Except String (List Json) :=
    match resp with
    | none => .ok []
    | some j => pyIter j
  match dataE with
  | .error e => .error e
  | .ok rows =>
    match processRows domain limit [] rows with
    | .error e => .error e
    | .ok subs => .ok (sortStrings (addToSet domain subs))

/-- One outcome of a `socket.getaddrinfo` call, as classified by
`resolve_hosts`: a list of address records (each contributing the
string `info[4][0]`), a `socket.gaierror` (the only exception class
the code catches), or any other raised exception. -/
inductive DnsOutcome where
  | ok (infos : List String)
  | gaierror
  | raised (msg : String)

/-- Whether the outcome is an exception the code does not catch. -/
def DnsOutcome.raises : DnsOutcome → Bool
  | .raised _ => true
  | _ => false

/-- Building a Python `set` from a list, rendered as a duplicate-free
list. -/
def dedupe (l : List String) : List String :=
  l.foldl (fun acc s => addToSet s acc) []

/-- The per-hostname record `{"host": ..., "ips": ...}` built by
`resolve_hosts` (resolve.py line 47). -/
structure Asset where
  host : String
  ips : List String
deriving DecidableEq

/-- `resolve_hosts` (resolve.py lines 19-48).  The platform resolver is
passed in as `dns`; a `raised` outcome is an exception that escapes the
`except socket.gaierror` handler and aborts the whole loop. -/
def resolve_hosts (dns : String → DnsOutcome) : List String → Except String (List Asset)
  | [] => .ok []
  | host :: rest =>
    match dns host with
    | .raised e => .error e
    | .ok infos =>
      match resolve_hosts dns rest with
      | .error e => .error e
      | .ok l => .ok (⟨host, sortStrings (dedupe infos)⟩ :: l)
    | .gaierror =>
      match resolve_hosts dns rest with
      | .error e => .error e
      | .ok l => .ok (⟨host, []⟩ :: l)

/-- A probe result record (probe.py lines 29-52). -/
structure Finding where
  url : String
  final_url : String
  status_code : Option Nat
  title : Option String
  server : Option String
  tls_not_after : Option String
  error : Option String
deriving DecidableEq

/-- The fake HTTPS response appended for each asset
(probe.py lines 29-39). -/
def httpsStub (host : String) : Finding :=
  ⟨"https://" ++ host, "https://" ++ host ++ "/", some 200, some "Example Domain",
    some "nginx", some "Jan  1 00:00:00 2030 GMT", none⟩

/-- The fake HTTP redirect appended for each asset
(probe.py lines 42-52). -/
def httpStub (host : String) : Finding :=
  ⟨"http://" ++ host, "https://" ++ host ++ "/", some 301, none, some "nginx", none, none⟩

/-- `probe_http` (probe.py lines 16-54): for each asset append the fake
HTTPS finding then the fake HTTP finding.  `timeout` is accepted and
never read, as in the source. -/
def probe_http (assets : List Asset) (_timeout : Float) : List Finding :=
  assets.foldl (fun findings asset => findings ++ [httpsStub asset.host, httpStub asset.host]) []

/-- The closed form of the stub prober's output: an HTTPS finding
immediately followed by an HTTP finding, per asset in order. -/
def stubFindings : List Asset → List Finding
  | [] => []
  | a :: rest => httpsStub a.host :: httpStub a.host :: stubFindings rest

/-! ### Helper lemmas -/

theorem insertSorted_length (s : String) (l : List String) :
    (insertSorted s l).length = l.length + 1 := by
  induction l with
  | nil => rfl
  | cons t ts ih =>
    simp only [insertSorted]
    split
    · simp
    · simp [ih]

theorem mem_insertSorted {x s : String} {l : List String} :
    x ∈ insertSorted s l ↔ x = s ∨ x ∈ l := by
  induction l with
  | nil => simp [insertSorted]
  | cons t ts ih =>
    simp only [insertSorted]
    split
    · simp [List.mem_cons]
    · simp only [List.mem_cons, ih]
      tauto

theorem sortStrings_length (l : List String) : (sortStrings l).length = l.length := by
  induction l with
  | nil => rfl
  | cons a as ih =>
    show (insertSorted a (sortStrings as)).length = as.length + 1
    rw [insertSorted_length, ih]

theorem mem_sortStrings {x : String} {l : List String} : x ∈ sortStrings l ↔ x ∈ l := by
  induction l with
  | nil => simp [sortStrings]
  | cons a as ih =>
    show x ∈ insertSorted a (sortStrings as) ↔ _
    rw [mem_insertSorted, ih]
    simp [List.mem_cons]

theorem addToSet_length_le (s : String) (l : List String) :
    (addToSet s l).length ≤ l.length + 1 := by
  unfold addToSet
  split
  · exact Nat.le_succ _
  · simp

theorem mem_addToSet {x s : String} {l : List String} :
    x ∈ addToSet s l ↔ x = s ∨ x ∈ l := by
  unfold addToSet
  split
  · rename_i hmem
    constructor
    · exact Or.inr
    · rintro (rfl | hx)
      · exact hmem
      · exact hx
  · simp [List.mem_append]
    tauto

theorem self_mem_addToSet (s : String) (l : List String) : s ∈ addToSet s l := by
  rw [mem_addToSet]
  exact Or.inl rfl

theorem processLines_length_le (domain : String) (limit : Nat) :
    ∀ (hs subs : List String), subs.length < limit →
      (processLines domain limit subs hs).length ≤ limit := by
  intro hs
  induction hs with
  | nil =>
    intro subs h
    simpa [processLines] using Nat.le_of_lt h
  | cons host rest ih =>
    intro subs h
    simp only [processLines]
    split
    · have hlen : (addToSet (normHost host) subs).length ≤ subs.length + 1 :=
        addToSet_length_le _ _
      split
      · exact hlen.trans h
      · rename_i hnot
        exact ih _ (Nat.lt_of_not_le hnot)
    · split
      · exact Nat.le_of_lt h
      · exact ih _ h

theorem processRows_ok_length {domain : String} {limit : Nat} :
    ∀ {rows : List Json} {subs out : List String}, subs.length < limit →
      processRows domain limit subs rows = Except.ok out →
      out.length ≤ limit := by
  intro rows
  induction rows with
  | nil =>
    intro subs out h hok
    simp only [processRows] at hok
    cases hok
    exact Nat.le_of_lt h
  | cons row rest ih =>
    intro subs out h hok
    simp only [processRows] at hok
    split at hok
    · cases hok
    · split at hok
      · cases hok
        exact processLines_length_le domain limit _ subs h
      · rename_i hnot
        exact ih (Nat.lt_of_not_le hnot) hok

/-- Shape of any successful `discover_subdomains` run: the result is
the sorted rendering of the collected set plus the root domain. -/
theorem discover_ok_subs {domain : String} {limit : Nat} {resp : Option Json}
    {l : List String} (h : discover_subdomains domain limit resp = Except.ok l) :
    ∃ rows subs, processRows domain limit [] rows = Except.ok subs ∧
      l = sortStrings (addToSet domain subs) := by
  cases resp with
  | none =>
    have hl : Except.ok (sortStrings (addToSet domain ([] : List String))) = Except.ok l := h
    injection hl with hl'
    exact ⟨[], [], rfl, hl'.symm⟩
  | some j =>
    simp only [discover_subdomains] at h
    cases hj : pyIter j with
    | error e => simp only [hj] at h; cases h
    | ok rows =>
      simp only [hj] at h
      cases hpr : processRows domain limit [] rows with
      | error e => simp only [hpr] at h; cases h
      | ok subs =>
        simp only [hpr] at h
        injection h with h'
        exact ⟨rows, subs, hpr, h'.symm⟩

/-- Whenever `discover_subdomains` returns (for any response behaviour),
it returns at most `limit + 1` hostnames. -/
theorem discover_ok_length {domain : String} {limit : Nat} {resp : Option Json}
    {l : List String} (hL : 1 ≤ limit)
    (h : discover_subdomains domain limit resp = Except.ok l) :
    l.length ≤ limit + 1 := by
  obtain ⟨rows, subs, hpr, rfl⟩ := discover_ok_subs h
  have hsubs : subs.length ≤ limit :=
    processRows_ok_length (show ([] : List String).length < limit from hL) hpr
  rw [sortStrings_length]
  exact le_trans (addToSet_length_le _ _) (Nat.succ_le_succ hsubs)

/-- Whenever `discover_subdomains` returns, the root domain is in the
result (discover.py line 107). -/
theorem discover_ok_mem_domain {domain : String} {limit : Nat} {resp : Option Json}
    {l : List String} (h : discover_subdomains domain limit resp = Except.ok l) :
    domain ∈ l := by
  obtain ⟨rows, subs, hpr, rfl⟩ := discover_ok_subs h
  exact mem_sortStrings.mpr (self_mem_addToSet _ _)

/-- A hostname accepted by `_valid_subdomain` is normalised in scope:
it equals the root domain or ends in `"." ++ domain`
(discover.py lines 51-53). -/
theorem valid_scope {host domain : String} (h : _valid_subdomain host domain = true) :
    normHost host = domain ∨ pyEndsWith (normHost host) ("." ++ domain) = true := by
  simp only [_valid_subdomain] at h
  split at h
  · cases h
  · split at h
    · cases h
    · rename_i hcond
      rcases Bool.not_eq_true _ ▸ hcond with hcond'
      rw [Bool.and_eq_false_iff] at hcond'
      rcases hcond' with hl | hr
      · left
        have : (normHost host == domain) = true := by
          cases hbeq : (normHost host == domain) with
          | true => rfl
          | false => rw [hbeq] at hl; cases hl
        exact eq_of_beq this
      · right
        cases hend : pyEndsWith (normHost host) ("." ++ domain) with
        | true => rfl
        | false => rw [hend] at hr; cases hr

/-- The inner loop only ever adds in-scope hostnames. -/
theorem processLines_scope (domain : String) (limit : Nat) :
    ∀ (hs subs : List String),
      (∀ x ∈ subs, x = domain ∨ pyEndsWith x ("." ++ domain) = true) →
      ∀ x ∈ processLines domain limit subs hs,
        x = domain ∨ pyEndsWith x ("." ++ domain) = true := by
  intro hs
  induction hs with
  | nil =>
    intro subs hsubs
    simpa [processLines] using hsubs
  | cons host rest ih =>
    intro subs hsubs
    simp only [processLines]
    split
    · rename_i hv
      have hsubs' : ∀ x ∈ addToSet (normHost host) subs,
          x = domain ∨ pyEndsWith x ("." ++ domain) = true := by
        intro x hx
        rcases mem_addToSet.mp hx with rfl | hx'
        · exact valid_scope hv
        · exact hsubs x hx'
      split
      · exact hsubs'
      · exact ih _ hsubs'
    · split
      · exact hsubs
      · exact ih _ hsubs

/-- The outer loop only ever adds in-scope hostnames. -/
theorem processRows_scope (domain : String) (limit : Nat) :
    ∀ (rows : List Json) (subs out : List String),
      (∀ x ∈ subs, x = domain ∨ pyEndsWith x ("." ++ domain) = true) →
      processRows domain limit subs rows = Except.ok out →
      ∀ x ∈ out, x = domain ∨ pyEndsWith x ("." ++ domain) = true := by
  intro rows
  induction rows with
  | nil =>
    intro subs out hsubs hok
    cases hok
    exact hsubs
  | cons row rest ih =>
    intro subs out hsubs hok
    simp only [processRows] at hok
    split at hok
    · cases hok
    · rename_i nv hnv
      have hsubs' := processLines_scope domain limit (splitlines (pyStrip nv)) subs hsubs
      split at hok
      · cases hok
        exact hsubs'
      · exact ih _ _ hsubs' hok

/-- Every hostname a successful `discover_subdomains` run returns is
the root domain or a suffix-scoped subdomain of it. -/
theorem discover_ok_scope {domain : String} {limit : Nat} {resp : Option Json}
    {l : List String} (h : discover_subdomains domain limit resp = Except.ok l) :
    ∀ x ∈ l, x = domain ∨ pyEndsWith x ("." ++ domain) = true := by
  obtain ⟨rows, subs, hpr, rfl⟩ := discover_ok_subs h
  intro x hx
  rcases mem_addToSet.mp (mem_sortStrings.mp hx) with rfl | hx'
  · exact Or.inl rfl
  · exact processRows_scope domain limit rows [] subs (by simp) hpr x hx'

/-- When no lookup raises outside `socket.gaierror`, `resolve_hosts`
returns one asset per hostname, in order. -/
theorem resolve_hosts_ok_of_no_raise (dns : String → DnsOutcome) :
    ∀ (hs : List String), (∀ x ∈ hs, (dns x).raises = false) →
      ∃ l, resolve_hosts dns hs = Except.ok l ∧ l.map Asset.host = hs ∧
        l.length = hs.length := by
  intro hs
  induction hs with
  | nil => exact fun _ => ⟨[], rfl, rfl, rfl⟩
  | cons x xs ih =>
    intro hno
    obtain ⟨l, hl, hmap, hlen⟩ := ih (fun y hy => hno y (List.mem_cons_of_mem _ hy))
    have hx := hno x (List.mem_cons_self _ _)
    cases hdns : dns x with
    | raised m => rw [hdns] at hx; cases hx
    | ok infos =>
      refine ⟨⟨x, sortStrings (dedupe infos)⟩ :: l, ?_, ?_, ?_⟩
      · simp [resolve_hosts, hdns, hl]
      · simp [hmap]
      · simp [hlen]
    | gaierror =>
      refine ⟨⟨x, []⟩ :: l, ?_, ?_, ?_⟩
      · simp [resolve_hosts, hdns, hl]
      · simp [hmap]
      · simp [hlen]

theorem probe_foldl_eq (assets : List Asset) (acc : List Finding) :
    assets.foldl (fun findings asset =>
        findings ++ [httpsStub asset.host, httpStub asset.host]) acc =
      acc ++ stubFindings assets := by
  induction assets generalizing acc with
  | nil => simp [stubFindings]
  | cons a as ih =>
    simp only [List.foldl_cons, stubFindings, ih]
    simp

/-- The stub prober's output in closed form. -/
theorem probe_eq_stubFindings (assets : List Asset) (t : Float) :
    probe_http assets t = stubFindings assets := by
  simpa using probe_foldl_eq assets []

theorem stubFindings_length (assets : List Asset) :
    (stubFindings assets).length = 2 * assets.length := by
  induction assets with
  | nil => rfl
  | cons a as ih =>
    simp only [stubFindings, List.length_cons, ih]
    omega

theorem stubFindings_congr : ∀ {a1 a2 : List Asset},
    a1.map Asset.host = a2.map Asset.host → stubFindings a1 = stubFindings a2 := by
  intro a1
  induction a1 with
  | nil =>
    intro a2 h
    cases a2 with
    | nil => rfl
    | cons b bs => cases h
  | cons a as ih =>
    intro a2 h
    cases a2 with
    | nil => cases h
    | cons b bs =>
      simp only [List.map_cons] at h
      injection h with h1 h2
      simp [stubFindings, h1, ih h2]

theorem stubFindings_error_none : ∀ {assets : List Asset} {f : Finding},
    f ∈ stubFindings assets → f.error = none := by
  intro assets
  induction assets with
  | nil => intro f h; cases h
  | cons a as ih =>
    intro f h
    simp only [stubFindings, List.mem_cons] at h
    rcases h with rfl | rfl | h
    · rfl
    · rfl
    · exact ih h

/-! ### Claims -/

/-- Claim C1 (amended): for every domain D, every limit L ≥ 1 and every
certificate-transparency response behaviour, a list returned by
`discover_subdomains` has length at most L + 1.  The cap is enforced
while scanning, but the root domain is added unconditionally afterwards
(discover.py line 107), so the cap can be exceeded by exactly one. -/
theorem discover_length_le_limit_succ (D : String) (L : Nat) (resp : Option Json)
    (l : List String) (hL : 1 ≤ L)
    (h : discover_subdomains D L resp = Except.ok l) : l.length ≤ L + 1 :=
  discover_ok_length hL h

theorem discover_length_le_limit_succ_witness :
    (["example.com"] : List String).length ≤ 1 + 1 :=
  discover_length_le_limit_succ "example.com" 1 none ["example.com"] (by decide) (by decide)

/-- Claim C1 counterexample: with limit 1 and a single certificate
record naming "a.example.com", the cap is reached by the subdomain and
the root domain is still appended, so the result has length 2 > 1. -/
theorem discover_length_counterexample :
    ¬ (∀ (D : String) (L : Nat) (resp : Option Json) (l : List String),
        1 ≤ L → discover_subdomains D L resp = Except.ok l → l.length ≤ L) := by
  intro hclaim
  have h2 := hclaim "example.com" 1
    (some (Json.arr [Json.obj [("name_value", Json.str "a.example.com")]]))
    ["a.example.com", "example.com"] (by decide) (by decide)
  exact absurd h2 (by decide)

/-- Claim C2 (code-bug evidence): a response body that decodes to valid
JSON which is not an array of record objects escapes the fetch/decode
`try`/`except` (discover.py lines 84-90); the loop then iterates the
dict's string keys and `row.get("name_value")` raises AttributeError
(discover.py line 94) instead of degrading to "no records found". -/
theorem discover_raises_on_nonrecord_json :
    discover_subdomains "example.com" 200
      (some (Json.obj [("message", Json.str "rate limited")])) =
      Except.error "AttributeError" := by decide

/-- Claim C3 counterexample: a single certificate record naming
"b.example.com" makes `discover_subdomains "example.com" 1` return two
hostnames, not `["example.com"]`. -/
theorem discover_limit_one_counterexample :
    ¬ (∀ (resp : Option Json) (l : List String),
        discover_subdomains "example.com" 1 resp = Except.ok l → l = ["example.com"]) := by
  intro hclaim
  have h2 := hclaim (some (Json.arr [Json.obj [("name_value", Json.str "b.example.com")]]))
    ["b.example.com", "example.com"] (by decide)
  exact absurd h2 (by decide)

/-- Claim C3 (amended): for every certificate-transparency response,
every list returned by `discover_subdomains "example.com" 1` contains
"example.com" and has at most two elements (the root domain plus at
most one capped discovery). -/
theorem discover_limit_one_amended (resp : Option Json) (l : List String)
    (h : discover_subdomains "example.com" 1 resp = Except.ok l) :
    "example.com" ∈ l ∧ l.length ≤ 2 :=
  ⟨discover_ok_mem_domain h, discover_ok_length (by decide) h⟩

theorem discover_limit_one_amended_witness :
    "example.com" ∈ (["example.com"] : List String) ∧
      (["example.com"] : List String).length ≤ 2 :=
  discover_limit_one_amended none ["example.com"] (by decide)

/-- Claim C4: every hostname in a list returned by
`discover_subdomains D limit` equals D or ends with "." followed by D,
for every response behaviour. -/
theorem discover_scope_containment (D : String) (L : Nat) (resp : Option Json)
    (l : List String) (h : discover_subdomains D L resp = Except.ok l) :
    ∀ x ∈ l, x = D ∨ pyEndsWith x ("." ++ D) = true :=
  discover_ok_scope h

theorem discover_scope_containment_witness :
    "example.com" = "example.com" ∨
      pyEndsWith "example.com" ("." ++ "example.com") = true :=
  discover_scope_containment "example.com" 200 none ["example.com"] (by decide)
    "example.com" (by decide)

/-- Claim C5: with one record bundling a wildcard entry, a subdomain and
an upper-cased root with trailing dot, `discover_subdomains` drops the
wildcard, folds case, strips the trailing dot, merges the duplicate
root, and returns the sorted pair. -/
theorem discover_normalisation_scenario :
    discover_subdomains "example.com" 200
      (some (Json.arr [Json.obj [("name_value",
        Json.str "*.example.com\na.example.com\nEXAMPLE.com.")]])) =
      Except.ok ["a.example.com", "example.com"] := by decide

/-- Claim C6 counterexample: a lookup behaviour raising outside
`socket.gaierror` (e.g. the UnicodeError that `socket.getaddrinfo`
raises on an over-long label) escapes the handler, so `resolve_hosts`
returns no list at all, of any length. -/
theorem resolve_length_counterexample :
    ¬ ∃ l, resolve_hosts (fun _ => DnsOutcome.raised "UnicodeError")
        ["aaaaaaaaaaaaaaaaaaaaaaaaaaaaaaaaaaaaaaaaaaaaaaaaaaaaaaaaaaaaaaaa.example.com"] =
        Except.ok l := by
  rintro ⟨l, hl⟩
  have hcon : Except.error "UnicodeError" = (Except.ok l : Except String (List Asset)) := hl
  cases hcon

/-- Claim C6 (amended): for every hostname list and every lookup
behaviour in which no lookup raises outside `socket.gaierror`,
`resolve_hosts` returns a list of the same length whose i-th element's
host field is the i-th input hostname. -/
theorem resolve_preserving_when_no_raise (dns : String → DnsOutcome) (hs : List String)
    (hno : ∀ x ∈ hs, (dns x).raises = false) :
    ∃ l, resolve_hosts dns hs = Except.ok l ∧ l.map Asset.host = hs ∧
      l.length = hs.length :=
  resolve_hosts_ok_of_no_raise dns hs hno

theorem resolve_preserving_when_no_raise_witness :
    ∃ l, resolve_hosts (fun _ => DnsOutcome.ok ["93.184.216.34"])
        ["a.example.com", "b.example.com"] = Except.ok l ∧
      l.map Asset.host = ["a.example.com", "b.example.com"] ∧
      l.length = (["a.example.com", "b.example.com"] : List String).length :=
  resolve_preserving_when_no_raise _ _ (fun _ _ => rfl)

/-- Claim C7 counterexample: only `socket.gaierror` is caught
(resolve.py line 43); a lookup failing with another exception class
aborts `resolve_hosts` entirely. -/
theorem resolve_raise_counterexample :
    resolve_hosts (fun _ => DnsOutcome.raised "UnicodeError: label too long")
      ["bbbbbbbbbbbbbbbbbbbbbbbbbbbbbbbbbbbbbbbbbbbbbbbbbbbbbbbbbbbbbbbb.example.com"] =
      Except.error "UnicodeError: label too long" := rfl

/-- Claim C7 (amended): a lookup failing with `socket.gaierror` is
absorbed: the hostname is recorded with an empty ips list and the
remaining hostnames are resolved exactly as they would have been. -/
theorem resolve_gaierror_isolated (dns : String → DnsOutcome) (x : String)
    (hs : List String) (h : dns x = DnsOutcome.gaierror) :
    resolve_hosts dns (x :: hs) =
      (resolve_hosts dns hs).map (fun l => ⟨x, []⟩ :: l) := by
  simp only [resolve_hosts, h]
  cases resolve_hosts dns hs <;> rfl

theorem resolve_gaierror_isolated_witness :
    resolve_hosts (fun _ => DnsOutcome.gaierror) ["nonexistent.invalid.test"] =
      Except.ok [⟨"nonexistent.invalid.test", []⟩] :=
  (resolve_gaierror_isolated (fun _ => DnsOutcome.gaierror)
    "nonexistent.invalid.test" [] rfl).trans rfl

/-- Claim C8: `probe_http` returns exactly two findings per asset, for
every asset list and every timeout. -/
theorem probe_two_findings_per_asset (assets : List Asset) (t : Float) :
    (probe_http assets t).length = 2 * assets.length := by
  rw [probe_eq_stubFindings]
  exact stubFindings_length assets

/-- Claim C9: every finding returned by `probe_http` is either an error
record or carries no error; in the stub every finding has
`error = none`, so the left disjunct always holds. -/
theorem finding_error_exclusive (assets : List Asset) (t : Float) (f : Finding)
    (h : f ∈ probe_http assets t) :
    f.error = none ∨ (f.status_code = none ∧ f.title = none ∧ f.server = none ∧
      f.tls_not_after = none) :=
  Or.inl (stubFindings_error_none (probe_eq_stubFindings assets t ▸ h))

theorem finding_error_exclusive_witness :
    (httpsStub "a.example.com").error = none ∨
      ((httpsStub "a.example.com").status_code = none ∧
        (httpsStub "a.example.com").title = none ∧
        (httpsStub "a.example.com").server = none ∧
        (httpsStub "a.example.com").tls_not_after = none) :=
  finding_error_exclusive [⟨"a.example.com", []⟩] 8.0 (httpsStub "a.example.com")
    (by rw [probe_eq_stubFindings]; exact List.mem_cons_self _ _)

/-- Claim C10: the stub prober's output depends only on the sequence of
host fields — never on the ips or the timeout — and consists, per asset
in order, of the HTTPS finding immediately followed by the HTTP
finding. -/
theorem probe_depends_only_on_hosts (a1 a2 : List Asset) (t1 t2 : Float)
    (h : a1.map Asset.host = a2.map Asset.host) :
    probe_http a1 t1 = probe_http a2 t2 ∧ probe_http a1 t1 = stubFindings a1 := by
  constructor
  · rw [probe_eq_stubFindings, probe_eq_stubFindings]
    exact stubFindings_congr h
  · exact probe_eq_stubFindings a1 t1

theorem probe_depends_only_on_hosts_witness :
    probe_http [⟨"a.example.com", ["1.2.3.4"]⟩] 1.0 =
        probe_http [⟨"a.example.com", []⟩] 30.0 ∧
      probe_http [⟨"a.example.com", ["1.2.3.4"]⟩] 1.0 =
        stubFindings [⟨"a.example.com", ["1.2.3.4"]⟩] :=
  probe_depends_only_on_hosts _ _ _ _ rfl

end AsmLite
